import Mathlib

/-! turtlesubmitter: the scouting pipeline

A shallow embedding of `scouter/scouter.go` and `ioext/files.go`.

Conventions of the embedding:

* Go strings are Lean `String`s (sequences of Unicode scalar values).
* A finite `float64` is the rational number it denotes (`ℚ`); `float64`
  arithmetic is rounded (`F64`, `round64`).
* Instants (`time.Time`) are integers: nanoseconds counted from Go's zero `Time`;
  a `time.Duration` is an `int64` count of nanoseconds.
* The reference tables `zones`, `mobNames` and `spawnpoints` are Go maps that are
  declared outside the embedded files; they are a parameter (`RefData`), as
  association lists.  The order of `mobNames` is the order in which the Go maps
  happen to be traversed.
* Standard-library calls whose result is data (`time.Parse`, `time.Now`,
  `strconv.ParseFloat`, `strconv.FormatFloat`, `json.Marshal`, the HTTP client,
  `os.ReadDir`) are parameters.
* A Go run-time panic or `log.Fatal` is an `Abort` in the `Except` monad.
* `log.Print` output is not modelled, except in `sendMobs`, where it is returned.
-/

namespace Turtlesubmitter

/-! ## Data model -/

/-- Go `Point`: a pair of coordinates. -/
structure Point where
  X : ℚ
  Y : ℚ
  deriving DecidableEq, Repr

/-- Go `Mob` (the Sighting). `Zone` and `Instance` are `uint`. -/
structure Mob where
  Name : String
  PosX : ℚ
  PosY : ℚ
  Zone : Nat
  Instance : Nat
  deriving DecidableEq, Repr

/-- Go `TurtleSighting`, the wire record. -/
structure TurtleSighting where
  ZoneID : Nat
  MobID : Nat
  InstanceNumber : Nat
  X : String
  Y : String
  deriving DecidableEq, Repr

/-- Go `TurtleSightings`, the batch envelope. -/
structure TurtleSightings where
  CollaboratorPassword : String
  Sightings : List TurtleSighting
  deriving DecidableEq, Repr

/-- Go `Scouter`. `Expansions` is a slice that may be nil; `Lookback` is a
`time.Duration`, an `int64` number of nanoseconds. -/
structure Scouter where
  Session : String
  Password : String
  Expansions : Option (List String)
  Lookback : Int

/-- The reference tables: `zones : map[string]uint`,
`mobNames : map[string]map[string]uint` (expansion, then monster name) and
`spawnpoints : map[uint][]Point`. -/
structure RefData where
  zones : List (String × Nat)
  mobNames : List (String × List (String × Nat))
  spawnpoints : List (Nat × List Point)

/-- The standard-library functions the parser and the wire record call.
`parseTime` is `time.Parse(time.RFC3339, ·)` and `parseFloat` is
`strconv.ParseFloat(·, 64)`, with `none` for a non-nil error; `formatFloat` is
`strconv.FormatFloat(·, 'f', -1, 64)`. -/
structure Lib where
  parseTime : String → Option Int
  parseFloat : String → Option ℚ
  formatFloat : ℚ → String

/-- How a Go function can stop the process instead of returning. -/
inductive Abort where
  | indexOutOfRange (index len : Nat)
  | nilDereference
  | fatal
  deriving DecidableEq, Repr

/-- Go `zones[zone]`: the zero value `0` when the key is missing. -/
def RefData.zoneOf (tbl : RefData) (zone : String) : Nat :=
  match tbl.zones.find? (fun e => e.1 == zone) with
  | some e => e.2
  | none => 0

/-- Go `spawnpoints[zone]`: the nil (empty) slice when the key is missing. -/
def RefData.spawnsOf (tbl : RefData) (zone : Nat) : List Point :=
  match tbl.spawnpoints.find? (fun e => e.1 == zone) with
  | some e => e.2
  | none => []

/-- The `(name, id)` pairs met by the nested loops
`for _, mobs := range mobNames { for name, id := range mobs {...} }`. -/
def RefData.allMobs (tbl : RefData) : List (String × Nat) :=
  tbl.mobNames.flatMap (fun e => e.2)

/-- Go slice indexing `parts[i]`, which panics when `i` is out of range. -/
def index (parts : List String) (i : Nat) : Except Abort String :=
  match parts.get? i with
  | some x => .ok x
  | none => .error (.indexOutOfRange i parts.length)

/-! ## Floating point

`float64` is IEEE 754 binary64 with rounding to nearest, ties to even. A finite
value is kept as the rational number it denotes (the sign of zero is not kept);
every operation computes the exact result and rounds it. -/

/-- A `float64` value. -/
inductive F64 where
  | fin (q : ℚ)
  | posInf
  | negInf
  | nan
  deriving DecidableEq, Repr

/-- The power `2 ^ p` for an integer exponent. -/
def pow2 (p : Int) : ℚ :=
  if 0 ≤ p then ((2 ^ p.toNat : Nat) : ℚ) else 1 / ((2 ^ (-p).toNat : Nat) : ℚ)

/-- Round a non-negative integer quotient `n / d` to the nearest integer, a tie
to the even one. -/
def roundHalfEven (n d : Nat) : Nat :=
  let f := n / d
  let r := n % d
  if 2 * r < d then f
  else if d < 2 * r then f + 1
  else if f % 2 = 0 then f else f + 1

/-- Halving `n` until it is below 2, at most `fuel` times: the number of halvings. -/
def halvings : Nat → Nat → Nat
  | 0, _ => 0
  | fuel + 1, n => if n < 2 then 0 else halvings fuel (n / 2) + 1

/-- The `k` with `2 ^ k ≤ n < 2 ^ (k + 1)`, for a positive `n`. -/
def floorLog2 (n : Nat) : Nat := halvings n n

/-- Binary exponent of a positive rational `a`: the `e` with
`2 ^ e ≤ a < 2 ^ (e + 1)`. It is the difference of the exponents of numerator and
denominator, or one less. -/
def binExponent (a : ℚ) : Int :=
  let e0 : Int := (floorLog2 a.num.toNat : Int) - (floorLog2 a.den : Int)
  if pow2 e0 ≤ a then e0 else e0 - 1

/-- The integer nearest to `a / 2 ^ p`, a tie going to the even one, for a positive
rational `a`. -/
def scaled (a : ℚ) (p : Int) : Nat :=
  if 0 ≤ p then roundHalfEven a.num.toNat (a.den * 2 ^ p.toNat)
  else roundHalfEven (a.num.toNat * 2 ^ (-p).toNat) a.den

/-- Binary64 rounding of a non-negative rational `a`. With `e` the binary
exponent of `a`, raised to the least normal exponent `-1022` for a subnormal
result, the value is rounded to a multiple of `2 ^ (e - 52)`; a result of
`2 ^ 1024` or more overflows to infinity. -/
def roundMag (a : ℚ) : F64 :=
  if a.num ≤ 0 then .fin 0
  else
    let p : Int := max (binExponent a) (-1022) - 52
    let v : ℚ := (scaled a p : ℚ) * pow2 p
    if pow2 1024 ≤ v then .posInf else .fin v

/-- Negation of a `float64`. -/
def F64.neg : F64 → F64
  | .fin q => .fin (-q)
  | .posInf => .negInf
  | .negInf => .posInf
  | .nan => .nan

/-- Binary64 rounding of an exact result. -/
def round64 (q : ℚ) : F64 :=
  if 0 ≤ q then roundMag q else (roundMag (-q)).neg

/-- Go `x - y` on finite `float64` operands. -/
def fsub (x y : ℚ) : F64 := round64 (x - y)

/-- Go `math.Abs`. -/
def F64.abs : F64 → F64
  | .fin q => .fin |q|
  | .posInf => .posInf
  | .negInf => .posInf
  | .nan => .nan

/-- Go `x + y` on `float64`. -/
def F64.add : F64 → F64 → F64
  | .fin a, .fin b => round64 (a + b)
  | .nan, _ => .nan
  | _, .nan => .nan
  | .posInf, .negInf => .nan
  | .negInf, .posInf => .nan
  | .posInf, _ => .posInf
  | _, .posInf => .posInf
  | .negInf, _ => .negInf
  | _, .negInf => .negInf

/-- Go `x < y` on `float64`: false when an operand is NaN. -/
def F64.lt : F64 → F64 → Bool
  | .fin a, .fin b => decide (a < b)
  | .fin _, .posInf => true
  | .negInf, .fin _ => true
  | .negInf, .posInf => true
  | _, _ => false

/-- Go `x <= y` on `float64`: false when an operand is NaN. -/
def F64.le : F64 → F64 → Bool
  | .fin a, .fin b => decide (a ≤ b)
  | .fin _, .posInf => true
  | .negInf, .fin _ => true
  | .negInf, .posInf => true
  | .posInf, .posInf => true
  | .negInf, .negInf => true
  | _, _ => false

/-- Go `x == y` on `float64`: false when an operand is NaN. -/
def F64.eq : F64 → F64 → Bool
  | .fin a, .fin b => decide (a = b)
  | .posInf, .posInf => true
  | .negInf, .negInf => true
  | _, _ => false

/-- The values a distance can take: a non-negative finite number or `+Inf`. -/
def F64.IsDist (x : F64) : Prop :=
  x = .posInf ∨ ∃ v : ℚ, 0 ≤ v ∧ x = .fin v

/-- A distance as an extended number, `+Inf` on top. -/
def F64.rank : F64 → WithTop ℚ
  | .fin q => (q : WithTop ℚ)
  | .posInf => ⊤
  | .negInf => 0
  | .nan => 0

/-! ## Spawnpoint resolver -/

/-- Manhattan distance as `findClosestSpawnpoint` computes it:
`math.Abs(spawnpoint.X-mob.PosX) + math.Abs(spawnpoint.Y-mob.PosY)` in `float64`.
The coordinates are finite `float64` values. -/
def distance (mob : Mob) (spawnpoint : Point) : F64 :=
  F64.add (fsub spawnpoint.X mob.PosX).abs (fsub spawnpoint.Y mob.PosY).abs

/-- The Manhattan distance `|dx| + |dy|` of the two points as an exact number. -/
def exactDistance (mob : Mob) (spawnpoint : Point) : ℚ :=
  |spawnpoint.X - mob.PosX| + |spawnpoint.Y - mob.PosY|

/-- One iteration of the loop of `findClosestSpawnpoint` on the pair
`(closest, closestDistance)`:
`if closestDistance == -1 || distance < closestDistance {...}`. -/
def closestStep (mob : Mob) (st : Point × F64) (spawnpoint : Point) : Point × F64 :=
  if F64.eq st.2 (.fin (-1)) || F64.lt (distance mob spawnpoint) st.2 then
    (spawnpoint, distance mob spawnpoint)
  else st

/-- Go `findClosestSpawnpoint`: `closest` starts as the zero `Point`,
`closestDistance` as `-1.0`. -/
def findClosestSpawnpoint (tbl : RefData) (mob : Mob) : Point :=
  ((tbl.spawnsOf mob.Zone).foldl (closestStep mob) (⟨0, 0⟩, .fin (-1))).1

/-- Loop invariant of `findClosestSpawnpoint` once the points `done` are visited. -/
def ClosestInv (mob : Mob) (done : List Point) (st : Point × F64) : Prop :=
  (done = [] ∧ st.2 = .fin (-1)) ∨
  (st.2 = distance mob st.1 ∧ ∃ pre post, done = pre ++ st.1 :: post ∧
    (∀ q ∈ pre, F64.lt st.2 (distance mob q) = true) ∧
    (∀ q ∈ post, F64.le st.2 (distance mob q) = true))

/-! ## Regular expressions

Go's `regexp` returns the leftmost match and, among the matches starting there, the
one a backtracking search finds first.  `matchRe` lists the ways an expression can
match a prefix of the input in that order of preference. -/

/-- The regular expressions needed for the sighting pattern. `greedy = false` is
the lazy form of a quantifier (`??`, `*?`, `+?`). -/
inductive Re where
  | chr (c : Char)
  | cls (ranges : List (Nat × Nat))
  | seq (a b : Re)
  | opt (greedy : Bool) (r : Re)
  | star (greedy : Bool) (r : Re)
  | plus (greedy : Bool) (r : Re)
  | group (i : Nat) (r : Re)
  deriving Repr

/-- Text captured by each group; the empty text for a group that took no part. -/
abbrev Caps := Nat → List Char

/-- Record the text of group `i`. -/
def setCap (c : Caps) (i : Nat) (v : List Char) : Caps :=
  fun j => if j = i then v else c j

/-- Membership of a character in a class given by code-point ranges. -/
def inRanges (rs : List (Nat × Nat)) (c : Char) : Bool :=
  rs.any (fun r => decide (r.1 ≤ c.toNat) && decide (c.toNat ≤ r.2))

/-- Repetition of `step`, at most `n` more times; a repetition has to consume
input. Greedy repetition prefers one more round, lazy repetition prefers to stop. -/
def starLoop (step : List Char → Caps → List (List Char × Caps)) (greedy : Bool) :
    Nat → List Char → Caps → List (List Char × Caps)
  | 0, s, c => [(s, c)]
  | n + 1, s, c =>
    let more := ((step s c).filter (fun r => decide (r.1.length < s.length))).flatMap
      (fun r => starLoop step greedy n r.1 r.2)
    if greedy then more ++ [(s, c)] else (s, c) :: more

/-- All matches of `re` against a prefix of the input, most preferred first: each
is the rest of the input and the captures. -/
def matchRe : Re → List Char → Caps → List (List Char × Caps)
  | .chr c, s, caps =>
    match s with
    | x :: rest => if x = c then [(rest, caps)] else []
    | [] => []
  | .cls rs, s, caps =>
    match s with
    | x :: rest => if inRanges rs x then [(rest, caps)] else []
    | [] => []
  | .seq a b, s, caps => (matchRe a s caps).flatMap (fun r => matchRe b r.1 r.2)
  | .opt greedy r, s, caps =>
    if greedy then matchRe r s caps ++ [(s, caps)] else (s, caps) :: matchRe r s caps
  | .star greedy r, s, caps => starLoop (matchRe r) greedy s.length s caps
  | .plus greedy r, s, caps =>
    (matchRe r s caps).flatMap (fun x => starLoop (matchRe r) greedy x.1.length x.1 x.2)
  | .group i r, s, caps =>
    (matchRe r s caps).map (fun x => (x.1, setCap x.2 i (s.take (s.length - x.1.length))))

/-- Leftmost match: try the start positions from left to right, `n` bounds the
number of positions still to try after the current one. The result is the text
of the match with the captures. -/
def findFrom (re : Re) : Nat → List Char → Option (List Char × Caps)
  | 0, s =>
    (matchRe re s (fun _ => [])).head?.map
      (fun r => (s.take (s.length - r.1.length), r.2))
  | n + 1, s =>
    match (matchRe re s (fun _ => [])).head? with
    | some r => some (s.take (s.length - r.1.length), r.2)
    | none =>
      match s with
      | [] => none
      | _ :: rest => findFrom re n rest

/-- Go `(*Regexp).FindStringSubmatch` for an expression with four groups: the
text of the match and of the groups 1 to 4, or the nil slice when nothing
matches. -/
def FindStringSubmatch (re : Re) (s : String) : List String :=
  match findFrom re s.data.length s.data with
  | some r => [String.mk r.1, String.mk (r.2 1), String.mk (r.2 2), String.mk (r.2 3),
      String.mk (r.2 4)]
  | none => []

/-- The pattern `\d+`. -/
def digitsRe : Re := .plus true (.cls [(48, 57)])

/-- The pattern `\d+\.\d+`. -/
def decimalRe : Re := .seq digitsRe (.seq (.chr '.') digitsRe)

/-- First and last code point of the instance markers, `[\x{E0B1}-\x{E0B6}]`. -/
def instanceRange : Nat × Nat := (0xE0B1, 0xE0B6)

/-- The pattern compiled in `parseChatFlag`:
`\x{E0BB}(?P<Zone>[A-Za-z' ]+?)(?P<Instance>[\x{E0B1}-\x{E0B6}])? \( ?(?P<PosX>\d+\.\d+) *?, ?(?P<PosY>\d+\.\d+)`. -/
def flagRe : Re :=
  .seq (.chr (Char.ofNat 0xE0BB))
  (.seq (.group 1 (.plus false (.cls [(65, 90), (97, 122), (39, 39), (32, 32)])))
  (.seq (.opt true (.group 2 (.cls [instanceRange])))
  (.seq (.chr ' ')
  (.seq (.chr '(')
  (.seq (.opt true (.chr ' '))
  (.seq (.group 3 decimalRe)
  (.seq (.star false (.chr ' '))
  (.seq (.chr ',')
  (.seq (.opt true (.chr ' '))
  (.group 4 decimalRe))))))))))

/-- Whether every group `2` of the expression is a single character of the class
of instance markers. -/
def instanceGroupOK : Re → Bool
  | .chr _ => true
  | .cls _ => true
  | .seq a b => instanceGroupOK a && instanceGroupOK b
  | .opt _ r => instanceGroupOK r
  | .star _ r => instanceGroupOK r
  | .plus _ r => instanceGroupOK r
  | .group i r =>
    if i = 2 then
      (match r with
       | .cls rs => decide (rs = [instanceRange])
       | _ => false)
    else instanceGroupOK r

/-- What group 2 can hold: nothing, or one instance marker. -/
def InstanceCap (caps : Caps) : Prop :=
  caps 2 = [] ∨ ∃ c : Char, caps 2 = [c] ∧ instanceRange.1 ≤ c.toNat ∧ c.toNat ≤ instanceRange.2

/-! ## Line parser -/

/-- Go `strings.Split(line, "|")` on the characters of the line. -/
def splitPipe : List Char → List (List Char)
  | [] => [[]]
  | c :: cs =>
    if c = '|' then [] :: splitPipe cs
    else
      match splitPipe cs with
      | f :: fs => (c :: f) :: fs
      | [] => [[c]]

/-- Go `strings.Split(line, "|")`. -/
def stringsSplit (line : String) : List String :=
  (splitPipe line.data).map String.mk

/-- Whether `sub` occurs in `s` at some position. -/
def containsChars (s sub : List Char) : Bool :=
  match s with
  | [] => sub.isEmpty
  | c :: cs => sub.isPrefixOf (c :: cs) || containsChars cs sub

/-- Go `strings.Contains`. -/
def stringsContains (s sub : String) : Bool := containsChars s.data sub.data

/-- Go `findMobName`: the first monster name, in traversal order, that occurs in
the message; the empty string when there is none. -/
def findMobName (tbl : RefData) (msg : String) : String :=
  match tbl.allMobs.find? (fun e => stringsContains msg e.1) with
  | some e => e.1
  | none => ""

/-- Go `asFloat`. -/
def asFloat (lib : Lib) (s : String) : ℚ :=
  match lib.parseFloat s with
  | some f => f
  | none => -2132831721

/-- Go `uint(instNum - 57520)` for the rune `instNum`: an `int32` subtraction
converted to the 64-bit `uint`. -/
def instanceOfRune (instNum : Nat) : Nat :=
  (((instNum : Int) - 57520) % 2 ^ 64).toNat

/-- Go `utf8.DecodeRuneInString`: the first rune of a non-empty string
(`RuneError`, U+FFFD, for the empty string). -/
def decodeRune (s : String) : Nat :=
  match s.data with
  | c :: _ => c.toNat
  | [] => 0xFFFD

/-- Go `parseChatFlag`; the timestamp, which is only logged, is left out. -/
def parseChatFlag (lib : Lib) (tbl : RefData) (parts : List String) :
    Except Abort (Option Mob) := do
  let msg ← index parts 4
  let mobName := findMobName tbl msg
  if mobName = "" then
    return none
  let matches_ := FindStringSubmatch flagRe msg
  if matches_.length = 0 then
    return none
  let zone ← index matches_ 1
  let instance_ ← index matches_ 2
  let inst := if instance_ ≠ "" then instanceOfRune (decodeRune instance_) else 1
  let rawX ← index matches_ 3
  let rawY ← index matches_ 4
  let raw : Mob :=
    { Name := mobName, PosX := asFloat lib rawX, PosY := asFloat lib rawY,
      Zone := tbl.zoneOf zone, Instance := inst }
  let spawn := findClosestSpawnpoint tbl raw
  return some { raw with PosX := spawn.X, PosY := spawn.Y }

/-- Go unary minus on a `time.Duration` (an `int64`, two's complement). -/
def negDuration (d : Int) : Int := (-d + 2 ^ 63) % 2 ^ 64 - 2 ^ 63

/-- Go `time.Now().Add(-s.Lookback)`, the oldest instant still processed. -/
def Scouter.cutoff (s : Scouter) (now : Int) : Int := now + negDuration s.Lookback

/-- Go `(*Scouter).parseLine`, with `now` the value of `time.Now()`. -/
def Scouter.parseLine (s : Scouter) (lib : Lib) (tbl : RefData) (now : Int) (line : String) :
    Except Abort (Option Mob) := do
  let parts := stringsSplit line
  let date ← index parts 1
  let tooOld :=
    match lib.parseTime date with
    | some d => decide (d < s.cutoff now)
    | none => false
  if tooOld then
    return none
  let kind ← index parts 0
  if kind = "00" then parseChatFlag lib tbl parts else return none

/-- Go `NewTurtleSighting`. -/
def NewTurtleSighting (lib : Lib) (tbl : RefData) (mob : Mob) : TurtleSighting :=
  let id :=
    match tbl.allMobs.find? (fun e => e.1 == mob.Name) with
    | some e => e.2
    | none => 1
  { ZoneID := mob.Zone, MobID := id, InstanceNumber := mob.Instance,
    X := lib.formatFloat mob.PosX, Y := lib.formatFloat mob.PosY }

/-- Equality of results is decidable. -/
instance instDecidableEqExcept {ε α : Type} [DecidableEq ε] [DecidableEq α] :
    DecidableEq (Except ε α)
  | .ok a, .ok b =>
    if h : a = b then isTrue (by rw [h]) else isFalse (fun h' => h (by cases h'; rfl))
  | .error a, .error b =>
    if h : a = b then isTrue (by rw [h]) else isFalse (fun h' => h (by cases h'; rfl))
  | .ok _, .error _ => isFalse (fun h => by cases h)
  | .error _, .ok _ => isFalse (fun h => by cases h)

/-! ## Sighting aggregator and pipeline driver -/

/-- Go map assignment `m[k] = v` on a map kept as an association list: the value of
an existing key is replaced, a new key is added. -/
def mapSet : List (String × Mob) → String → Mob → List (String × Mob)
  | [], k, v => [(k, v)]
  | (k', v') :: rest, k, v =>
    if k' = k then (k, v) :: rest else (k', v') :: mapSet rest k v

/-- Go map lookup `m[k]`. -/
def mapGet (m : List (String × Mob)) (k : String) : Option Mob :=
  (m.find? (fun e => e.1 == k)).map (fun e => e.2)

/-- The variables `mobs` and `dueForSend` of `Run` that both tasks share. -/
structure Aggregator where
  mobs : List (String × Mob)
  dueForSend : Bool

/-- State of `Run` before the first line: `mobs := make(map[string]*Mob)`,
`dueForSend := false`. -/
def Aggregator.init : Aggregator := { mobs := [], dueForSend := false }

/-- The map key `mob.Name+strconv.FormatUint(uint64(mob.Instance), 10)`. -/
def mobKey (mob : Mob) : String := mob.Name ++ Nat.repr mob.Instance

/-- The critical section of the ingestion loop of `Run`:
`mobs[key] = mob; dueForSend = true`. -/
def Aggregator.update (a : Aggregator) (mob : Mob) : Aggregator :=
  { mobs := mapSet a.mobs (mobKey mob) mob, dueForSend := true }

/-- What the flush task does, in the order in which it happens. -/
inductive Event where
  | lock
  | unlock
  | clearDue
  | sendMobs (mobs : List (String × Mob))
  deriving DecidableEq, Repr

/-- The statements of the function literal that the flush goroutine runs at each
tick: `mutex.Lock()`, `mutex.Unlock()`, `dueForSend = false`, `s.sendMobs(mobs)`,
and `defer` of a statement. -/
inductive Stmt where
  | lock
  | unlock
  | clearDue
  | sendMobs
  | defer (s : Stmt)
  deriving DecidableEq, Repr

/-- Effect of one statement when it is executed (a deferred statement: when the
deferred call is made). -/
def perform : Stmt → Aggregator → Aggregator × List Event
  | .lock, a => (a, [.lock])
  | .unlock, a => (a, [.unlock])
  | .clearDue, a => ({ a with dueForSend := false }, [.clearDue])
  | .sendMobs, a => (a, [.sendMobs a.mobs])
  | .defer s, a => perform s a

/-- The deferred calls made when the function returns; the list has the call
deferred last at its head. -/
def runDeferred : List Stmt → Aggregator → Aggregator × List Event
  | [], a => (a, [])
  | s :: rest, a =>
    let r := perform s a
    let r' := runDeferred rest r.1
    (r'.1, r.2 ++ r'.2)

/-- Run a function body: statements in order, `defer` only records its statement,
and the recorded statements run at the end, last deferred first. -/
def runStmts : List Stmt → Aggregator → List Stmt → Aggregator × List Event
  | [], a, deferred => runDeferred deferred a
  | .defer s :: rest, a, deferred => runStmts rest a (s :: deferred)
  | s :: rest, a, deferred =>
    let r := perform s a
    let r' := runStmts rest r.1 deferred
    (r'.1, r.2 ++ r'.2)

/-- Body of the `if dueForSend {...}` of the flush goroutine:
`mutex.Lock(); dueForSend = false; defer mutex.Unlock(); s.sendMobs(mobs)`. -/
def tickBody : List Stmt := [.lock, .clearDue, .defer .unlock, .sendMobs]

/-- One tick of the flush goroutine of `Run`: the function literal
`func() { if dueForSend { ... } }()`. The result is the new state with the actions
taken, in order. -/
def Aggregator.flushTick (a : Aggregator) : Aggregator × List Event :=
  if a.dueForSend then runStmts tickBody a [] else (a, [])

/-- The map handed to `sendMobs` during a tick, if any. -/
def submitted : List Event → Option (List (String × Mob))
  | [] => none
  | .sendMobs m :: _ => some m
  | _ :: rest => submitted rest

/-- Whether every `sendMobs` of a trace happens while the lock is not held;
`held` tells whether the lock is held at the start of the trace. -/
def sendsOutsideLock : Bool → List Event → Bool
  | _, [] => true
  | _, .lock :: rest => sendsOutsideLock true rest
  | _, .unlock :: rest => sendsOutsideLock false rest
  | held, .sendMobs _ :: rest => !held && sendsOutsideLock held rest
  | held, .clearDue :: rest => sendsOutsideLock held rest

/-- Go `contains`. -/
def contains (haystack : List String) (needle : String) : Bool :=
  match haystack with
  | [] => false
  | x :: rest => if x = needle then true else contains rest needle

/-- The list `acceptedMobs` built at the start of `Run`. -/
def Scouter.acceptedMobs (s : Scouter) (tbl : RefData) : List String :=
  match s.Expansions with
  | none => tbl.allMobs.map (fun e => e.1)
  | some expansions =>
    expansions.flatMap (fun expansion =>
      match tbl.mobNames.find? (fun e => e.1 == expansion) with
      | some e => e.2.map (fun x => x.1)
      | none => [])

/-- One round of the ingestion loop of `Run` on a scanned line. -/
def Scouter.ingestLine (s : Scouter) (lib : Lib) (tbl : RefData) (now : Int)
    (a : Aggregator) (line : String) : Except Abort Aggregator := do
  let mob ← s.parseLine lib tbl now line
  match mob with
  | some m => if contains (s.acceptedMobs tbl) m.Name then return a.update m else return a
  | none => return a

/-- The last element of the sequence with the given name and instance. -/
def lastWith (ms : List Mob) (name : String) (inst : Nat) : Option Mob :=
  ms.reverse.find? (fun m => decide (m.Name = name ∧ m.Instance = inst))

/-! ## Submitter -/

/-- Go `*http.Request`, as far as `sendMobs` builds it. -/
structure Request where
  Method : String
  URL : String
  Body : String
  Header : List (String × String)
  deriving DecidableEq, Repr

/-- Go `*http.Response`, as far as `sendMobs` reads it. -/
structure Response where
  StatusCode : Nat
  Status : String
  Body : String
  deriving DecidableEq, Repr

/-- The calls of `sendMobs` into the standard library. A Go call returning
`(value, err)` is a pair of options, `none` standing for nil: `marshal` is
`json.Marshal`, `newRequest` is `http.NewRequestWithContext` with the 5 s context
(method, URL, body), `doRequest` is `http.DefaultClient.Do`. -/
structure Net where
  marshal : TurtleSightings → Option String × Option String
  newRequest : String → String → String → Option Request × Option String
  doRequest : Request → Option Response × Option String

/-- Log lines written by `log.Print(err)` when `err` is not nil. -/
def logErr (err : Option String) : List String :=
  match err with
  | some e => [e]
  | none => []

/-- Go `(*Scouter).sendMobs`: the lines logged and how the call ends. Reading a
field of a nil `*http.Request` or `*http.Response` is a nil dereference. -/
def Scouter.sendMobs (s : Scouter) (lib : Lib) (tbl : RefData) (net : Net)
    (mobs : List (String × Mob)) : List String × Except Abort Unit :=
  let url := "https://scout.wobbuffet.net/api/v1/scout/" ++ s.Session
  let log0 := ["Sending mobs to " ++ url]
  let sightings : TurtleSightings :=
    { CollaboratorPassword := s.Password,
      Sightings := mobs.map (fun e => NewTurtleSighting lib tbl e.2) }
  match net.marshal sightings with
  | (_, some err) => (log0 ++ [err], .error .fatal)
  | (body, none) =>
    let (req, err) := net.newRequest "PATCH" url (body.getD "")
    let log1 := log0 ++ logErr err
    match req with
    | none => (log1, .error .nilDereference)
    | some req =>
      let req := { req with Header := ("Content-Type", "application/json") :: req.Header }
      let (res, err) := net.doRequest req
      let log2 := log1 ++ logErr err
      match res with
      | none => (log2, .error .nilDereference)
      | some res =>
        if res.StatusCode ≠ 200 then
          (log2 ++ ["Failed to send mobs:" ++ res.Status, res.Body], .ok ())
        else (log2 ++ ["Mobs successfully sent"], .ok ())

/-! ## File discovery -/

/-- Go `os.DirEntry`: the name and the result of `Info()`, that is the
modification time, or `none` when `Info()` returns an error. -/
structure DirEntry where
  Name : String
  ModTime : Option Int
  deriving DecidableEq, Repr

/-- The zero `time.Time`, initial value of `lastModifTime`. -/
def zeroTime : Int := 0

/-- One iteration of the loop of `GetLatestFile` on `(lastFile, lastModifTime)`;
the loop body assigns `lastFile` only. -/
def latestStep (st : Option DirEntry × Int) (file : DirEntry) :
    Except Abort (Option DirEntry × Int) :=
  match file.ModTime with
  | none => .error .fatal
  | some modTime =>
    if st.1 = none ∨ modTime > st.2 then .ok (some file, st.2) else .ok st

/-- Go `GetLatestFile` on the result of `os.ReadDir(dir)` (`none` for an error);
the result `none` is the nil `DirEntry`. -/
def GetLatestFile (readDir : Option (List DirEntry)) : Except Abort (Option DirEntry) :=
  match readDir with
  | none => .error .fatal
  | some files => (files.foldlM latestStep (none, zeroTime)).map (fun st => st.1)

/-- The state after `n` further ticks of the flush goroutine. -/
def ticks : Nat → Aggregator → Aggregator
  | 0, a => a
  | n + 1, a => ticks n a.flushTick.1

/-! ## Sample data -/

/-- A table with one zone of three spawn points. -/
def resolverTable : RefData :=
  { zones := [("Urqopacha", 1187)],
    mobNames := [("DT", [("Sansheya", 13399)])],
    spawnpoints := [(1187, [⟨10, 2⟩, ⟨3, 5⟩, ⟨4, 2⟩])] }

/-- A raw sighting at (3, 3) in that zone. -/
def resolverMob : Mob :=
  { Name := "Sansheya", PosX := 3, PosY := 3, Zone := 1187, Instance := 1 }

/-- The value of the `float64` literal nearest to `q`, for a `q` in range. -/
def literal (q : ℚ) : ℚ :=
  match round64 q with
  | .fin v => v
  | _ => 0

/-- First spawn point of `roundedTable`, the Go literal `Point{15.1, 15.9}`. -/
def roundedFirst : Point := ⟨literal (151 / 10), literal (159 / 10)⟩

/-- Second spawn point of `roundedTable`, the Go literal `Point{18.8, 19.6}`. -/
def roundedSecond : Point := ⟨literal (188 / 10), literal (196 / 10)⟩

/-- A table with one zone of two spawn points given with one decimal. -/
def roundedTable : RefData :=
  { zones := [("Urqopacha", 1187)],
    mobNames := [("DT", [("Sansheya", 13399)])],
    spawnpoints := [(1187, [roundedFirst, roundedSecond])] }

/-- A raw sighting at the `float64` values of (10.9, 37.2) in that zone. -/
def roundedMob : Mob :=
  { Name := "Sansheya", PosX := literal (109 / 10), PosY := literal (372 / 10),
    Zone := 1187, Instance := 1 }

/-- A table with one zone of two spawn points, the first of them `2^-60` off the
second. -/
def tinyTable : RefData :=
  { zones := [("Urqopacha", 1187)],
    mobNames := [("DT", [("Sansheya", 13399)])],
    spawnpoints := [(1187, [⟨1, 1 / 2 ^ 60⟩, ⟨1, 0⟩])] }

/-- A raw sighting at (0, 0) in that zone. -/
def tinyMob : Mob :=
  { Name := "Sansheya", PosX := 0, PosY := 0, Zone := 1187, Instance := 1 }

/-- A table in which the zone of the samples has two spawn points. -/
def sampleTable : RefData :=
  { zones := [("Urqopacha", 1187)],
    mobNames := [("DT", [("Sansheya", 13399)])],
    spawnpoints := [(1187, [⟨10, 40⟩, ⟨12, 46⟩])] }

/-- The same table without spawn points for the zone. -/
def bareTable : RefData :=
  { zones := [("Urqopacha", 1187)],
    mobNames := [("DT", [("Sansheya", 13399)])],
    spawnpoints := [] }

/-- Value of a string of decimal digits, `none` when a character is no digit. -/
def digitsValue (cs : List Char) : Option Nat :=
  cs.foldl (fun acc c =>
    match acc with
    | some n => if '0' ≤ c ∧ c ≤ '9' then some (10 * n + (c.toNat - 48)) else none
    | none => none) (some 0)

/-- The exact value of a numeral `digits.digits`, `none` for any other text. -/
def decimalValue (s : String) : Option ℚ :=
  match s.data.span (fun c => c != '.') with
  | (whole, '.' :: frac) =>
    match digitsValue whole, digitsValue frac with
    | some w, some f =>
      if whole ≠ [] ∧ frac ≠ [] then some ((w : ℚ) + (f : ℚ) / (10 : ℚ) ^ frac.length)
      else none
    | _, _ => none
  | _ => none

/-- Timestamp of the sample lines. -/
def sampleStamp : String := "2024-08-21T17:07:49+03:00"

/-- Instant of `sampleStamp`, in nanoseconds from the zero `Time`. -/
def sampleInstant : Int := 63859846069 * 10 ^ 9

/-- Sample `parseFloat`: the `float64` nearest to a numeral `digits.digits`, an
error for any other text and for a value out of range. -/
def nearestFloat (s : String) : Option ℚ :=
  match decimalValue s with
  | some q =>
    match round64 q with
    | .fin v => some v
    | _ => none
  | none => none

/-- Sample library: `parseTime` knows `sampleStamp` only, `formatFloat` prints a
fraction. -/
def sampleLib : Lib :=
  { parseTime := fun s => if s = sampleStamp then some sampleInstant else none,
    parseFloat := nearestFloat,
    formatFloat := fun q => toString q.num ++ "/" ++ toString q.den }

/-- Sample configuration: all expansions, a lookback of four hours. -/
def sampleScouter : Scouter :=
  { Session := "session", Password := "password", Expansions := none,
    Lookback := 4 * 3600 * 10 ^ 9 }

/-- The same configuration with the least lookback a `time.Duration` can hold. -/
def minLookbackScouter : Scouter :=
  { Session := "session", Password := "password", Expansions := none,
    Lookback := -2 ^ 63 }

/-- A chat line without instance marker. -/
def lineNoMarker : String :=
  "00|2024-08-21T17:07:49+03:00|0039||\uE0BBUrqopacha ( 12.3 , 45.6 ) Sansheya"

/-- Fields of a chat line whose message has the first marker of the range, U+E0B1. -/
def partsFirstMarker : List String :=
  ["00", sampleStamp, "0039", "", "\uE0BBUrqopacha\uE0B1 ( 12.3 , 45.6 ) Sansheya"]

/-- Fields of a chat line whose message has the marker U+E0B4. -/
def partsFourthMarker : List String :=
  ["00", sampleStamp, "0039", "", "\uE0BBUrqopacha\uE0B4 ( 12.3 , 45.6 ) Sansheya"]

/-- First sample update. -/
def updateA : Mob := { Name := "Sansheya", PosX := 10, PosY := 40, Zone := 1187, Instance := 1 }

/-- Second sample update: the same monster in instance 2. -/
def updateB : Mob := { Name := "Sansheya", PosX := 12, PosY := 46, Zone := 1187, Instance := 2 }

/-- Third sample update: name and instance of the first, another position. -/
def updateA2 : Mob := { Name := "Sansheya", PosX := 12, PosY := 46, Zone := 1187, Instance := 1 }

/-- An aggregator holding one Sighting that is due for sending. -/
def pendingAggregator : Aggregator :=
  { mobs := [("Sansheya1", updateA)], dueForSend := true }

/-- A network on which every call times out: `Do` returns a nil response and an
error. -/
def netTimeout : Net :=
  { marshal := fun _ => (some "{}", none),
    newRequest := fun method url body => (some ⟨method, url, body, []⟩, none),
    doRequest := fun _ => (none, some "context deadline exceeded") }

/-- A network whose requests cannot be built: `NewRequestWithContext` returns a
nil request and an error. -/
def netBadRequest : Net :=
  { marshal := fun _ => (some "{}", none),
    newRequest := fun _ _ _ => (none, some "invalid URL escape"),
    doRequest := fun _ => (some ⟨200, "200 OK", ""⟩, none) }

/-- A listing in name order whose first entry is the most recently modified. -/
def sampleListing : List DirEntry :=
  [⟨"Network_20240821.log", some 200⟩, ⟨"Network_20240822.log", some 100⟩]

/-! ## Floating point: proofs -/

theorem pow2_nonneg (p : Int) : 0 ≤ pow2 p := by
  unfold pow2
  split <;> positivity

theorem roundMag_isDist (a : ℚ) : (roundMag a).IsDist := by
  unfold roundMag
  split
  · exact Or.inr ⟨0, le_refl 0, rfl⟩
  · dsimp only
    split
    · exact Or.inl rfl
    · exact Or.inr ⟨_, mul_nonneg (Nat.cast_nonneg _) (pow2_nonneg _), rfl⟩

theorem round64_ne_nan (q : ℚ) : round64 q ≠ .nan := by
  unfold round64
  split
  · rcases roundMag_isDist q with h | ⟨v, _, h⟩ <;> rw [h] <;> simp
  · rcases roundMag_isDist (-q) with h | ⟨v, _, h⟩ <;> rw [h] <;> simp [F64.neg]

theorem abs_isDist (x : F64) (h : x ≠ .nan) : x.abs.IsDist := by
  cases x with
  | fin q => exact Or.inr ⟨|q|, abs_nonneg q, rfl⟩
  | posInf => exact Or.inl rfl
  | negInf => exact Or.inl rfl
  | nan => exact absurd rfl h

theorem add_isDist (a b : F64) (ha : a.IsDist) (hb : b.IsDist) : (a.add b).IsDist := by
  rcases ha with ha | ⟨va, hva, ha⟩ <;> rcases hb with hb | ⟨vb, hvb, hb⟩ <;> subst ha <;>
    subst hb
  · exact Or.inl rfl
  · exact Or.inl rfl
  · exact Or.inl rfl
  · have hsum : 0 ≤ va + vb := add_nonneg hva hvb
    have : (F64.fin va).add (F64.fin vb) = roundMag (va + vb) := by
      simp [F64.add, round64, hsum]
    rw [this]
    exact roundMag_isDist _

theorem distance_isDist (mob : Mob) (p : Point) : (distance mob p).IsDist := by
  unfold distance fsub
  exact add_isDist _ _ (abs_isDist _ (round64_ne_nan _)) (abs_isDist _ (round64_ne_nan _))

theorem isDist_eq_init (a : F64) (ha : a.IsDist) : F64.eq a (.fin (-1)) = false := by
  rcases ha with ha | ⟨v, hv, ha⟩ <;> subst ha
  · rfl
  · have : v ≠ -1 := by linarith
    simp [F64.eq, this]

theorem isDist_lt_iff (a b : F64) (ha : a.IsDist) (hb : b.IsDist) :
    F64.lt a b = true ↔ a.rank < b.rank := by
  rcases ha with ha | ⟨va, _, ha⟩ <;> rcases hb with hb | ⟨vb, _, hb⟩ <;> subst ha <;>
    subst hb <;> simp [F64.lt, F64.rank]

theorem isDist_le_iff (a b : F64) (ha : a.IsDist) (hb : b.IsDist) :
    F64.le a b = true ↔ a.rank ≤ b.rank := by
  rcases ha with ha | ⟨va, _, ha⟩ <;> rcases hb with hb | ⟨vb, _, hb⟩ <;> subst ha <;>
    subst hb <;> simp [F64.le, F64.rank]

/-- Sample roundings: an exact value, the literal `0.1`, a tie going to the even
neighbour on either side, the least subnormal and half of it, the greatest finite
value and the least value that overflows. -/
theorem round64_samples :
    round64 (3 / 4) = .fin (3 / 4) ∧
    round64 (1 / 10) = .fin (3602879701896397 / 2 ^ 55) ∧
    round64 (2 ^ 53 + 1) = .fin (2 ^ 53) ∧
    round64 (2 ^ 53 + 3) = .fin (2 ^ 53 + 4) ∧
    round64 (-(2 ^ 53 + 3)) = .fin (-(2 ^ 53 + 4)) ∧
    round64 (1 / 2 ^ 1074) = .fin (1 / 2 ^ 1074) ∧
    round64 (1 / 2 ^ 1075) = .fin 0 ∧
    round64 (2 ^ 1024 - 2 ^ 971) = .fin (2 ^ 1024 - 2 ^ 971) ∧
    round64 (2 ^ 1024 - 2 ^ 970 - 1) = .fin (2 ^ 1024 - 2 ^ 971) ∧
    round64 (2 ^ 1024 - 2 ^ 970) = .posInf := by
  refine ⟨by decide!, by decide!, by decide!, by decide!, by decide!, by decide!,
    by decide!, by decide!, by decide!, by decide!⟩

/-! ## Spawnpoint resolver: proofs -/

theorem closestStep_inv (mob : Mob) (done : List Point) (st : Point × F64) (x : Point)
    (h : ClosestInv mob done st) : ClosestInv mob (done ++ [x]) (closestStep mob st x) := by
  have hdx := distance_isDist mob x
  rcases h with ⟨hd, hs⟩ | ⟨hs, pre, post, hdone, hpre, hpost⟩
  · right
    have : closestStep mob st x = (x, distance mob x) := by simp [closestStep, hs, F64.eq]
    rw [this]
    exact ⟨rfl, [], [], by simp [hd], by simp, by simp⟩
  · right
    have hst : st.2.IsDist := by rw [hs]; exact distance_isDist mob st.1
    have hne : F64.eq st.2 (.fin (-1)) = false := isDist_eq_init _ hst
    by_cases hlt : F64.lt (distance mob x) st.2 = true
    · have : closestStep mob st x = (x, distance mob x) := by simp [closestStep, hlt]
      rw [this]
      refine ⟨rfl, done, [], by simp, ?_, by simp⟩
      intro q hq
      rw [hdone] at hq
      simp only [List.mem_append, List.mem_cons] at hq
      show F64.lt (distance mob x) (distance mob q) = true
      have hdq := distance_isDist mob q
      rw [isDist_lt_iff _ _ hdx hdq]
      rw [isDist_lt_iff _ _ hdx hst] at hlt
      rcases hq with hq | hq | hq
      · exact lt_trans hlt ((isDist_lt_iff _ _ hst hdq).mp (hpre q hq))
      · rw [hq, ← hs]; exact hlt
      · exact lt_of_lt_of_le hlt ((isDist_le_iff _ _ hst hdq).mp (hpost q hq))
    · have : closestStep mob st x = st := by simp [closestStep, hlt, hne]
      rw [this]
      refine ⟨hs, pre, post ++ [x], by simp [hdone], hpre, ?_⟩
      intro q hq
      simp only [List.mem_append, List.mem_singleton] at hq
      rcases hq with hq | hq
      · exact hpost q hq
      · rw [hq, isDist_le_iff _ _ hst hdx]
        rw [isDist_lt_iff _ _ hdx hst] at hlt
        exact not_lt.mp hlt

theorem closest_foldl_inv (mob : Mob) (l done : List Point) (st : Point × F64)
    (h : ClosestInv mob done st) :
    ClosestInv mob (done ++ l) (l.foldl (closestStep mob) st) := by
  induction l generalizing done st with
  | nil => simpa using h
  | cons x xs ih =>
    have := ih (done ++ [x]) (closestStep mob st x) (closestStep_inv mob done st x h)
    simpa using this

theorem findClosestSpawnpoint_nil (tbl : RefData) (mob : Mob)
    (h : tbl.spawnsOf mob.Zone = []) : findClosestSpawnpoint tbl mob = ⟨0, 0⟩ := by
  simp [findClosestSpawnpoint, h]

theorem findClosestSpawnpoint_mem (tbl : RefData) (mob : Mob)
    (hne : tbl.spawnsOf mob.Zone ≠ []) :
    findClosestSpawnpoint tbl mob ∈ tbl.spawnsOf mob.Zone := by
  have h := closest_foldl_inv mob (tbl.spawnsOf mob.Zone) [] (⟨0, 0⟩, .fin (-1))
    (Or.inl ⟨rfl, rfl⟩)
  simp only [List.nil_append] at h
  rcases h with ⟨hd, _⟩ | ⟨_, pre, post, hdone, _, _⟩
  · exact absurd hd hne
  · have hres : findClosestSpawnpoint tbl mob =
        ((tbl.spawnsOf mob.Zone).foldl (closestStep mob) (⟨0, 0⟩, .fin (-1))).1 := rfl
    rw [← hres] at hdone
    rw [hdone]; simp

/-- C1 (amended): for a zone with a non-empty spawn list, `findClosestSpawnpoint`
returns an element of the list whose Manhattan distance to the raw point, as the
code computes it in `float64` (each subtraction and the sum rounded), is at most
(`<=`) the distance so computed of every element of the list, and it is the first
such element in table order: every element before it has a strictly greater
computed distance. No computed distance is NaN. -/
theorem findClosestSpawnpoint_first_computed_minimum (tbl : RefData) (mob : Mob)
    (hne : tbl.spawnsOf mob.Zone ≠ []) :
    findClosestSpawnpoint tbl mob ∈ tbl.spawnsOf mob.Zone ∧
    (∀ q ∈ tbl.spawnsOf mob.Zone,
      F64.le (distance mob (findClosestSpawnpoint tbl mob)) (distance mob q) = true) ∧
    (∃ pre post, tbl.spawnsOf mob.Zone = pre ++ findClosestSpawnpoint tbl mob :: post ∧
      ∀ q ∈ pre,
        F64.lt (distance mob (findClosestSpawnpoint tbl mob)) (distance mob q) = true) ∧
    (∀ q : Point, distance mob q ≠ .nan) := by
  have hnan : ∀ q : Point, distance mob q ≠ .nan := by
    intro q hq
    rcases distance_isDist mob q with h | ⟨v, _, h⟩ <;> rw [h] at hq <;> simp at hq
  have h := closest_foldl_inv mob (tbl.spawnsOf mob.Zone) [] (⟨0, 0⟩, .fin (-1))
    (Or.inl ⟨rfl, rfl⟩)
  simp only [List.nil_append] at h
  rcases h with ⟨hd, _⟩ | ⟨hs, pre, post, hdone, hpre, hpost⟩
  · exact absurd hd hne
  · have hres : findClosestSpawnpoint tbl mob =
        ((tbl.spawnsOf mob.Zone).foldl (closestStep mob) (⟨0, 0⟩, .fin (-1))).1 := rfl
    rw [← hres] at hdone hs
    rw [hs] at hpre hpost
    refine ⟨?_, ?_, ⟨pre, post, hdone, hpre⟩, hnan⟩
    · rw [hdone]; simp
    · intro q hq
      have hdr := distance_isDist mob (findClosestSpawnpoint tbl mob)
      have hdq := distance_isDist mob q
      rw [hdone] at hq
      simp only [List.mem_append, List.mem_cons] at hq
      rcases hq with hq | hq | hq
      · rw [isDist_le_iff _ _ hdr hdq]
        exact le_of_lt ((isDist_lt_iff _ _ hdr hdq).mp (hpre q hq))
      · rw [hq, isDist_le_iff _ _ hdr hdr]
      · exact hpost q hq

/-- Witness for C1 (amended): a zone with three spawn points, two of them at the
minimal computed distance 2 from the raw point (3, 3); the earlier one is
returned. -/
theorem findClosestSpawnpoint_first_computed_minimum_witness :
    findClosestSpawnpoint resolverTable resolverMob = ⟨3, 5⟩ ∧
    distance resolverMob ⟨3, 5⟩ = .fin 2 ∧ distance resolverMob ⟨4, 2⟩ = .fin 2 ∧
    findClosestSpawnpoint resolverTable resolverMob ∈
      resolverTable.spawnsOf resolverMob.Zone ∧
    (∀ q ∈ resolverTable.spawnsOf resolverMob.Zone,
      F64.le (distance resolverMob (findClosestSpawnpoint resolverTable resolverMob))
        (distance resolverMob q) = true) ∧
    (∃ pre post, resolverTable.spawnsOf resolverMob.Zone
        = pre ++ findClosestSpawnpoint resolverTable resolverMob :: post ∧
      ∀ q ∈ pre,
        F64.lt (distance resolverMob (findClosestSpawnpoint resolverTable resolverMob))
          (distance resolverMob q) = true) ∧
    (∀ q : Point, distance resolverMob q ≠ .nan) :=
  ⟨by decide!, by decide!, by decide!,
   findClosestSpawnpoint_first_computed_minimum resolverTable resolverMob (by decide)⟩

/-- C1 (as stated) fails, with distances taken as exact numbers. In the first
table the two spawn points are at the same exact distance from the raw point, the
computed distances are 25.5 + 2^-48 and 25.5, and the second point is returned. In
the second table the point returned is strictly farther from the raw point than
the other one: both computed distances are 1. -/
theorem findClosestSpawnpoint_exact_counterexample :
    (exactDistance roundedMob roundedFirst = exactDistance roundedMob roundedSecond ∧
     roundedTable.spawnsOf roundedMob.Zone = [roundedFirst, roundedSecond] ∧
     distance roundedMob roundedFirst = .fin (51 / 2 + 1 / 2 ^ 48) ∧
     distance roundedMob roundedSecond = .fin (51 / 2) ∧
     findClosestSpawnpoint roundedTable roundedMob = roundedSecond ∧
     roundedFirst ≠ roundedSecond) ∧
    (tinyTable.spawnsOf tinyMob.Zone = [⟨1, 1 / 2 ^ 60⟩, ⟨1, 0⟩] ∧
     distance tinyMob ⟨1, 1 / 2 ^ 60⟩ = .fin 1 ∧ distance tinyMob ⟨1, 0⟩ = .fin 1 ∧
     findClosestSpawnpoint tinyTable tinyMob = ⟨1, 1 / 2 ^ 60⟩ ∧
     exactDistance tinyMob ⟨1, 0⟩ < exactDistance tinyMob ⟨1, 1 / 2 ^ 60⟩) := by
  refine ⟨⟨by decide!, by decide!, by decide!, by decide!, by decide!, by decide!⟩,
    ⟨by decide!, by decide!, by decide!, by decide!, by decide!⟩⟩

/-! ## The instance marker captured by the pattern -/

theorem instanceCap_setCap_ne (caps : Caps) (i : Nat) (v : List Char) (hi : i ≠ 2)
    (h : InstanceCap caps) : InstanceCap (setCap caps i v) := by
  have : setCap caps i v 2 = caps 2 := by
    unfold setCap
    rw [if_neg (fun h2 => hi h2.symm)]
  unfold InstanceCap
  rw [this]
  exact h

theorem starLoop_instanceCap (step : List Char → Caps → List (List Char × Caps))
    (greedy : Bool)
    (hstep : ∀ s caps, InstanceCap caps → ∀ x ∈ step s caps, InstanceCap x.2)
    (n : Nat) (s : List Char) (caps : Caps) (h : InstanceCap caps) :
    ∀ x ∈ starLoop step greedy n s caps, InstanceCap x.2 := by
  induction n generalizing s caps with
  | zero =>
    intro x hx
    simp only [starLoop, List.mem_singleton] at hx
    rw [hx]; exact h
  | succ n ih =>
    intro x hx
    have hmore : ∀ y ∈ ((step s caps).filter
        (fun r => decide (r.1.length < s.length))).flatMap
        (fun r => starLoop step greedy n r.1 r.2), InstanceCap y.2 := by
      intro y hy
      rw [List.mem_flatMap] at hy
      obtain ⟨r, hr, hy⟩ := hy
      exact ih r.1 r.2 (hstep s caps h r (List.mem_of_mem_filter hr)) y hy
    simp only [starLoop] at hx
    cases greedy with
    | true =>
      simp only [if_true, List.mem_append, List.mem_singleton] at hx
      rcases hx with hx | hx
      · exact hmore x hx
      · rw [hx]; exact h
    | false =>
      simp only [Bool.false_eq_true, if_false, List.mem_cons] at hx
      rcases hx with hx | hx
      · rw [hx]; exact h
      · exact hmore x hx

theorem matchRe_instanceCap (re : Re) (hre : instanceGroupOK re = true) :
    ∀ (s : List Char) (caps : Caps), InstanceCap caps →
      ∀ x ∈ matchRe re s caps, InstanceCap x.2 := by
  induction re with
  | chr c =>
    intro s caps h x hx
    cases s with
    | nil => simp [matchRe] at hx
    | cons a rest =>
      simp only [matchRe] at hx
      split at hx
      · simp only [List.mem_singleton] at hx; rw [hx]; exact h
      · simp at hx
  | cls rs =>
    intro s caps h x hx
    cases s with
    | nil => simp [matchRe] at hx
    | cons a rest =>
      simp only [matchRe] at hx
      split at hx
      · simp only [List.mem_singleton] at hx; rw [hx]; exact h
      · simp at hx
  | seq a b iha ihb =>
    intro s caps h x hx
    simp only [instanceGroupOK, Bool.and_eq_true] at hre
    simp only [matchRe, List.mem_flatMap] at hx
    obtain ⟨r, hr, hx⟩ := hx
    exact ihb hre.2 r.1 r.2 (iha hre.1 s caps h r hr) x hx
  | opt greedy r ih =>
    intro s caps h x hx
    simp only [instanceGroupOK] at hre
    simp only [matchRe] at hx
    cases greedy with
    | true =>
      simp only [if_true, List.mem_append, List.mem_singleton] at hx
      rcases hx with hx | hx
      · exact ih hre s caps h x hx
      · rw [hx]; exact h
    | false =>
      simp only [Bool.false_eq_true, if_false, List.mem_cons] at hx
      rcases hx with hx | hx
      · rw [hx]; exact h
      · exact ih hre s caps h x hx
  | star greedy r ih =>
    intro s caps h x hx
    simp only [instanceGroupOK] at hre
    simp only [matchRe] at hx
    exact starLoop_instanceCap (matchRe r) greedy (ih hre) s.length s caps h x hx
  | plus greedy r ih =>
    intro s caps h x hx
    simp only [instanceGroupOK] at hre
    simp only [matchRe, List.mem_flatMap] at hx
    obtain ⟨y, hy, hx⟩ := hx
    exact starLoop_instanceCap (matchRe r) greedy (ih hre) y.1.length y.1 y.2
      (ih hre s caps h y hy) x hx
  | group i r ih =>
    intro s caps h x hx
    simp only [matchRe, List.mem_map] at hx
    obtain ⟨y, hy, hx⟩ := hx
    rw [← hx]
    by_cases hi : i = 2
    · subst hi
      simp only [instanceGroupOK, if_true] at hre
      cases r with
      | cls rs =>
        simp only [decide_eq_true_eq] at hre
        subst hre
        cases s with
        | nil => simp [matchRe] at hy
        | cons a rest =>
          simp only [matchRe] at hy
          split at hy
          · rename_i hin
            simp only [List.mem_singleton] at hy
            subst hy
            right
            refine ⟨a, ?_, ?_⟩
            · simp [setCap]
            · simpa [inRanges] using hin
          · simp at hy
      | chr c => simp at hre
      | seq a b => simp at hre
      | opt g r => simp at hre
      | star g r => simp at hre
      | plus g r => simp at hre
      | group j r => simp at hre
    · simp only [instanceGroupOK, if_neg hi] at hre
      exact instanceCap_setCap_ne y.2 i _ hi (ih hre s caps h y hy)

theorem findFrom_instanceCap (re : Re) (hre : instanceGroupOK re = true) (n : Nat)
    (s : List Char) (r : List Char × Caps) (h : findFrom re n s = some r) :
    InstanceCap r.2 := by
  have hinit : InstanceCap (fun _ => []) := Or.inl rfl
  induction n generalizing s with
  | zero =>
    simp only [findFrom, Option.map_eq_some'] at h
    obtain ⟨y, hy, hr⟩ := h
    rw [← hr]
    exact matchRe_instanceCap re hre s _ hinit y (List.mem_of_mem_head? hy)
  | succ n ih =>
    simp only [findFrom] at h
    split at h
    · rename_i y hy
      simp only [Option.some.injEq] at h
      rw [← h]
      exact matchRe_instanceCap re hre s _ hinit y (List.mem_of_mem_head? hy)
    · cases s with
      | nil => simp at h
      | cons a rest => exact ih rest h
theorem FindStringSubmatch_cases (re : Re) (s : String) :
    FindStringSubmatch re s = [] ∨
    ∃ r, findFrom re s.data.length s.data = some r ∧
      FindStringSubmatch re s = [String.mk r.1, String.mk (r.2 1), String.mk (r.2 2),
        String.mk (r.2 3), String.mk (r.2 4)] := by
  unfold FindStringSubmatch
  cases h : findFrom re s.data.length s.data with
  | none => left; rfl
  | some r => right; exact ⟨r, rfl, rfl⟩

theorem parseChatFlag_some (lib : Lib) (tbl : RefData) (parts : List String) (mob : Mob)
    (h : parseChatFlag lib tbl parts = .ok (some mob)) :
    ∃ msg r, index parts 4 = .ok msg ∧ findFrom flagRe msg.data.length msg.data = some r ∧
      mob.Name = findMobName tbl msg ∧
      mob.Instance = (if String.mk (r.2 2) ≠ "" then
        instanceOfRune (decodeRune (String.mk (r.2 2))) else 1) ∧
      mob.Zone = tbl.zoneOf (String.mk (r.2 1)) ∧
      ∃ raw : Mob, raw.Zone = mob.Zone ∧ raw.PosX = asFloat lib (String.mk (r.2 3)) ∧
        raw.PosY = asFloat lib (String.mk (r.2 4)) ∧
        Point.mk mob.PosX mob.PosY = findClosestSpawnpoint tbl raw := by
  unfold parseChatFlag at h
  cases hmsg : index parts 4 with
  | error e => rw [hmsg] at h; simp [bind, Except.bind] at h
  | ok msg =>
    rw [hmsg] at h
    simp only [bind, Except.bind] at h
    by_cases hname : findMobName tbl msg = ""
    · simp [hname, pure, Except.pure] at h
    · rcases FindStringSubmatch_cases flagRe msg with hnil | ⟨r, hr, hm⟩
      · simp [hname, hnil, pure, Except.pure] at h
      · refine ⟨msg, r, rfl, hr, ?_⟩
        simp [hname, hm, pure, Except.pure, index] at h
        subst h
        refine ⟨rfl, ?_, rfl, ?_⟩
        · by_cases hx : String.mk (r.2 2) = "" <;> simp [hx]
        · exact ⟨Mob.mk (findMobName tbl msg) (asFloat lib (String.mk (r.2 3)))
            (asFloat lib (String.mk (r.2 4))) (tbl.zoneOf (String.mk (r.2 1)))
            (if String.mk (r.2 2) = "" then 1
              else instanceOfRune (decodeRune (String.mk (r.2 2)))), rfl, rfl, rfl, rfl⟩

theorem instanceOfRune_marker (c : Nat) (h1 : 0xE0B1 ≤ c) (h2 : c ≤ 0xE0B6) :
    instanceOfRune c = c - 0xE0B1 + 1 := by
  unfold instanceOfRune
  omega

/-- C2 (amended): when `parseChatFlag` produces a Sighting, the message matches the
pattern, and either no instance marker was captured and `Instance = 1`, or the
captured marker is one glyph `c` of U+E0B1..U+E0B6 and
`Instance = c - 0xE0B1 + 1`; so `Instance` lies between 1 and 6. -/
theorem parseChatFlag_instance (lib : Lib) (tbl : RefData) (parts : List String) (mob : Mob)
    (h : parseChatFlag lib tbl parts = .ok (some mob)) :
    ∃ msg whole zone marker x y,
      index parts 4 = .ok msg ∧
      FindStringSubmatch flagRe msg = [whole, zone, marker, x, y] ∧
      ((marker = "" ∧ mob.Instance = 1) ∨
        ∃ c : Char, marker = String.mk [c] ∧ 0xE0B1 ≤ c.toNat ∧ c.toNat ≤ 0xE0B6 ∧
          mob.Instance = c.toNat - 0xE0B1 + 1) ∧
      1 ≤ mob.Instance ∧ mob.Instance ≤ 6 := by
  obtain ⟨msg, r, hmsg, hr, -, hinst, -, -⟩ := parseChatFlag_some lib tbl parts mob h
  have hcap := findFrom_instanceCap flagRe (by decide) _ _ r hr
  have hm : FindStringSubmatch flagRe msg = [String.mk r.1, String.mk (r.2 1),
      String.mk (r.2 2), String.mk (r.2 3), String.mk (r.2 4)] := by
    unfold FindStringSubmatch; rw [hr]
  refine ⟨msg, _, _, _, _, _, hmsg, hm, ?_⟩
  rcases hcap with hnil | ⟨c, hc, h1, h2⟩
  · have hi : mob.Instance = 1 := by rw [hinst, hnil]; simp
    exact ⟨Or.inl ⟨by rw [hnil], hi⟩, by omega, by omega⟩
  · have h1' : 0xE0B1 ≤ c.toNat := h1
    have h2' : c.toNat ≤ 0xE0B6 := h2
    have hi : mob.Instance = c.toNat - 0xE0B1 + 1 := by
      rw [hinst, hc]
      have hne : String.mk [c] ≠ "" := by
        intro hcontra
        have := congrArg String.data hcontra
        simp at this
      rw [if_pos hne]
      exact instanceOfRune_marker c.toNat h1' h2'
    exact ⟨Or.inr ⟨c, by rw [hc], h1', h2', hi⟩, by omega, by omega⟩
/-- Witness for C2: the marker U+E0B4, at distance 3 from the first glyph of the
range, gives `Instance = 4`. -/
theorem parseChatFlag_instance_witness :
    parseChatFlag sampleLib sampleTable partsFourthMarker
      = .ok (some ⟨"Sansheya", 12, 46, 1187, 4⟩) ∧
    ∃ msg whole zone marker x y,
      index partsFourthMarker 4 = .ok msg ∧
      FindStringSubmatch flagRe msg = [whole, zone, marker, x, y] ∧
      ((marker = "" ∧ (4 : Nat) = 1) ∨
        ∃ c : Char, marker = String.mk [c] ∧ 0xE0B1 ≤ c.toNat ∧ c.toNat ≤ 0xE0B6 ∧
          (4 : Nat) = c.toNat - 0xE0B1 + 1) ∧
      1 ≤ (4 : Nat) ∧ (4 : Nat) ≤ 6 :=
  ⟨by decide!,
   parseChatFlag_instance sampleLib sampleTable partsFourthMarker
     ⟨"Sansheya", 12, 46, 1187, 4⟩ (by decide!)⟩

/-- C2 (as stated) fails: with the first glyph of the range, U+E0B1, as marker the
Sighting has `Instance = 1`, whereas `c - first + 2` is 2. -/
theorem parseChatFlag_instance_counterexample :
    parseChatFlag sampleLib sampleTable partsFirstMarker
      = .ok (some ⟨"Sansheya", 12, 46, 1187, 1⟩) ∧
    FindStringSubmatch flagRe "\uE0BBUrqopacha\uE0B1 ( 12.3 , 45.6 ) Sansheya"
      = ["\uE0BBUrqopacha\uE0B1 ( 12.3 , 45.6", "Urqopacha", String.mk [Char.ofNat 0xE0B1],
         "12.3", "45.6"] ∧
    (1 : Nat) ≠ (Char.ofNat 0xE0B1).toNat - 0xE0B1 + 2 := by
  refine ⟨by decide!, by decide, by decide⟩

/-! ## Line parser: proofs -/

theorem cutoff_eq_sub (s : Scouter) (now : Int)
    (h : -2 ^ 63 < s.Lookback ∧ s.Lookback < 2 ^ 63) : s.cutoff now = now - s.Lookback := by
  unfold Scouter.cutoff negDuration
  omega

theorem index_of_get? (parts : List String) (i : Nat) (x : String)
    (h : parts.get? i = some x) : index parts i = .ok x := by
  unfold index; rw [h]

/-- C3 (amended): for a lookback that is an `int64` other than the least one, a line
with at least two fields whose field 1 parses as the instant `t` yields no Sighting
when `t` is strictly before `now - lookback`, whatever the other fields are. -/
theorem parseLine_lookback (s : Scouter) (lib : Lib) (tbl : RefData) (now : Int)
    (line date : String) (t : Int)
    (hrange : -2 ^ 63 < s.Lookback ∧ s.Lookback < 2 ^ 63)
    (hdate : (stringsSplit line).get? 1 = some date)
    (ht : lib.parseTime date = some t)
    (hold : t < now - s.Lookback) :
    s.parseLine lib tbl now line = .ok none := by
  have hcut : t < s.cutoff now := by rw [cutoff_eq_sub s now hrange]; exact hold
  unfold Scouter.parseLine
  simp only [index_of_get? _ _ _ hdate, bind, Except.bind, ht, hcut, decide_True, if_true]
  rfl

/-- Witness for C3 (amended): a sighting line stamped five hours before `now`, with
a lookback of four hours. -/
theorem parseLine_lookback_witness :
    (-2 ^ 63 < sampleScouter.Lookback ∧ sampleScouter.Lookback < 2 ^ 63) ∧
    (stringsSplit lineNoMarker).get? 1 = some sampleStamp ∧
    sampleLib.parseTime sampleStamp = some sampleInstant ∧
    sampleInstant < (sampleInstant + 5 * 3600 * 10 ^ 9) - sampleScouter.Lookback ∧
    sampleScouter.parseLine sampleLib sampleTable (sampleInstant + 5 * 3600 * 10 ^ 9)
      lineNoMarker = .ok none :=
  ⟨by decide, by decide, by decide, by decide,
   parseLine_lookback sampleScouter sampleLib sampleTable (sampleInstant + 5 * 3600 * 10 ^ 9)
     lineNoMarker sampleStamp sampleInstant (by decide) (by decide) (by decide) (by decide)⟩

/-- C3 (as stated) fails for the least `int64` lookback, `-2^63` ns: `-s.Lookback`
overflows to `-2^63`, the line stamped 5 ns before `now` is strictly before
`now - lookback = now + 2^63`, and it is turned into a Sighting. -/
theorem parseLine_lookback_counterexample :
    minLookbackScouter.Lookback = -2 ^ 63 ∧
    (stringsSplit lineNoMarker).get? 1 = some sampleStamp ∧
    sampleLib.parseTime sampleStamp = some sampleInstant ∧
    sampleInstant < (sampleInstant + 5) - minLookbackScouter.Lookback ∧
    minLookbackScouter.parseLine sampleLib sampleTable (sampleInstant + 5) lineNoMarker
      = .ok (some ⟨"Sansheya", 12, 46, 1187, 1⟩) := by
  refine ⟨by decide, by decide, by decide, by decide, by decide!⟩

theorem parseLine_some (s : Scouter) (lib : Lib) (tbl : RefData) (now : Int) (line : String)
    (mob : Mob) (h : s.parseLine lib tbl now line = .ok (some mob)) :
    parseChatFlag lib tbl (stringsSplit line) = .ok (some mob) := by
  unfold Scouter.parseLine at h
  dsimp only at h
  cases hd : index (stringsSplit line) 1 with
  | error e => rw [hd] at h; simp [bind, Except.bind] at h
  | ok date =>
    rw [hd] at h
    simp only [bind, Except.bind, pure, Except.pure] at h
    split at h
    · simp at h
    · cases hk : index (stringsSplit line) 0 with
      | error e => rw [hk] at h; simp at h
      | ok kind =>
        rw [hk] at h
        simp only at h
        split at h
        · exact h
        · simp at h

/-- C4 (amended): the position of a Sighting produced by `parseLine` is what
`findClosestSpawnpoint` returns for the Sighting's zone and the raw coordinates
captured from field 4 of the line. When that zone has spawn points registered, the
position is one of them, and the `X` and `Y` of the `TurtleSighting` built from the
Sighting are that point's coordinates formatted; when it has none, the position
is (0, 0). -/
theorem parseLine_position (s : Scouter) (lib : Lib) (tbl : RefData) (now : Int)
    (line : String) (mob : Mob) (h : s.parseLine lib tbl now line = .ok (some mob)) :
    (∃ msg whole zone marker x y, ∃ raw : Mob,
      index (stringsSplit line) 4 = .ok msg ∧
      FindStringSubmatch flagRe msg = [whole, zone, marker, x, y] ∧
      raw.Zone = mob.Zone ∧ raw.PosX = asFloat lib x ∧ raw.PosY = asFloat lib y ∧
      Point.mk mob.PosX mob.PosY = findClosestSpawnpoint tbl raw) ∧
    (tbl.spawnsOf mob.Zone ≠ [] →
      ∃ p ∈ tbl.spawnsOf mob.Zone, mob.PosX = p.X ∧ mob.PosY = p.Y ∧
        (NewTurtleSighting lib tbl mob).X = lib.formatFloat p.X ∧
        (NewTurtleSighting lib tbl mob).Y = lib.formatFloat p.Y) ∧
    (tbl.spawnsOf mob.Zone = [] → mob.PosX = 0 ∧ mob.PosY = 0) := by
  obtain ⟨msg, r, hmsg, hr, -, -, -, raw, hzone, hx, hy, hpos⟩ :=
    parseChatFlag_some lib tbl (stringsSplit line) mob (parseLine_some s lib tbl now line mob h)
  have hm : FindStringSubmatch flagRe msg = [String.mk r.1, String.mk (r.2 1),
      String.mk (r.2 2), String.mk (r.2 3), String.mk (r.2 4)] := by
    unfold FindStringSubmatch; rw [hr]
  refine ⟨⟨msg, _, _, _, _, _, raw, hmsg, hm, hzone, hx, hy, hpos⟩, ?_, ?_⟩
  · intro hne
    rw [← hzone] at hne
    have hmem := findClosestSpawnpoint_mem tbl raw hne
    rw [← hpos, hzone] at hmem
    exact ⟨_, hmem, rfl, rfl, rfl, rfl⟩
  · intro hnil
    rw [← hzone] at hnil
    have h0 := findClosestSpawnpoint_nil tbl raw hnil
    rw [← hpos] at h0
    exact ⟨congrArg Point.X h0, congrArg Point.Y h0⟩

/-- Witness for C4: the raw position (12.3, 45.6) is replaced by the spawn point
(12, 46) of the zone. -/
theorem parseLine_position_witness :
    sampleScouter.parseLine sampleLib sampleTable (sampleInstant + 5) lineNoMarker
      = .ok (some ⟨"Sansheya", 12, 46, 1187, 1⟩) ∧
    Point.mk 12 46 ∈ sampleTable.spawnsOf 1187 ∧
    ((∃ msg whole zone marker x y, ∃ raw : Mob,
        index (stringsSplit lineNoMarker) 4 = .ok msg ∧
        FindStringSubmatch flagRe msg = [whole, zone, marker, x, y] ∧
        raw.Zone = 1187 ∧ raw.PosX = asFloat sampleLib x ∧ raw.PosY = asFloat sampleLib y ∧
        Point.mk 12 46 = findClosestSpawnpoint sampleTable raw) ∧
     (sampleTable.spawnsOf 1187 ≠ [] →
        ∃ p ∈ sampleTable.spawnsOf 1187, (12 : ℚ) = p.X ∧ (46 : ℚ) = p.Y ∧
          (NewTurtleSighting sampleLib sampleTable ⟨"Sansheya", 12, 46, 1187, 1⟩).X
            = sampleLib.formatFloat p.X ∧
          (NewTurtleSighting sampleLib sampleTable ⟨"Sansheya", 12, 46, 1187, 1⟩).Y
            = sampleLib.formatFloat p.Y) ∧
     (sampleTable.spawnsOf 1187 = [] → (12 : ℚ) = 0 ∧ (46 : ℚ) = 0)) :=
  ⟨by decide!, by decide!,
   parseLine_position sampleScouter sampleLib sampleTable (sampleInstant + 5) lineNoMarker
     ⟨"Sansheya", 12, 46, 1187, 1⟩ (by decide!)⟩

/-- C4 (as stated) fails: for a table without spawn points for the zone, the
Sighting is placed at (0, 0), which is no spawn point of its zone. -/
theorem parseLine_position_counterexample :
    sampleScouter.parseLine sampleLib bareTable (sampleInstant + 5) lineNoMarker
      = .ok (some ⟨"Sansheya", 0, 0, 1187, 1⟩) ∧
    Point.mk 0 0 ∉ bareTable.spawnsOf 1187 := by
  refine ⟨by decide!, by decide⟩

theorem splitPipe_no_pipe (cs : List Char) (h : '|' ∉ cs) : splitPipe cs = [cs] := by
  induction cs with
  | nil => rfl
  | cons c rest ih =>
    simp only [List.mem_cons, not_or] at h
    have hc : c ≠ '|' := fun e => h.1 e.symm
    simp [splitPipe, hc, ih h.2]

theorem parseLine_no_pipe (s : Scouter) (lib : Lib) (tbl : RefData) (now : Int)
    (line : String) (h : '|' ∉ line.data) :
    s.parseLine lib tbl now line = .error (.indexOutOfRange 1 1) := by
  simp [Scouter.parseLine, stringsSplit, splitPipe_no_pipe line.data h, index, bind,
    Except.bind]

/-- C9 (code at the failing inputs): `parseLine` stops with an index-out-of-range
panic on the empty line (at `parts[1]`), and on an event-type `00` line of four
fields with a timestamp inside the lookback window (at `parts[4]`). -/
theorem parseLine_index_out_of_range :
    sampleScouter.parseLine sampleLib sampleTable (sampleInstant + 5) ""
      = .error (.indexOutOfRange 1 1) ∧
    sampleScouter.parseLine sampleLib sampleTable (sampleInstant + 5)
      "00|2024-08-21T17:07:49+03:00|0039|Sansheya"
      = .error (.indexOutOfRange 4 4) := by
  refine ⟨by decide, by decide⟩

/-! ## Sighting aggregator: proofs -/

theorem mapGet_mapSet (m : List (String × Mob)) (k k' : String) (v : Mob) :
    mapGet (mapSet m k v) k' = if k' = k then some v else mapGet m k' := by
  induction m with
  | nil =>
    by_cases h : k' = k
    · simp [mapSet, mapGet, h]
    · have h' : k ≠ k' := fun e => h e.symm
      simp [mapSet, mapGet, h, h']
  | cons e rest ih =>
    obtain ⟨ke, ve⟩ := e
    by_cases hke : ke = k
    · subst hke
      by_cases h : k' = ke
      · simp [mapSet, mapGet, h]
      · have h' : ke ≠ k' := fun e => h e.symm
        simp [mapSet, mapGet, h, h']
    · by_cases h : ke = k'
      · subst h
        simp [mapSet, mapGet, hke]
      · have ih' := ih
        simp only [mapGet] at ih'
        simp [mapSet, mapGet, hke, h, ih']

theorem mem_keys_mapSet (m : List (String × Mob)) (k k' : String) (v : Mob) :
    k' ∈ (mapSet m k v).map Prod.fst ↔ k' = k ∨ k' ∈ m.map Prod.fst := by
  induction m with
  | nil => simp [mapSet]
  | cons e rest ih =>
    obtain ⟨ke, ve⟩ := e
    by_cases hke : ke = k
    · subst hke
      simp [mapSet]
    · simp only [mapSet, if_neg hke, List.map_cons, List.mem_cons, ih]
      tauto

theorem nodup_keys_mapSet (m : List (String × Mob)) (k : String) (v : Mob)
    (h : (m.map Prod.fst).Nodup) : ((mapSet m k v).map Prod.fst).Nodup := by
  induction m with
  | nil => simp [mapSet]
  | cons e rest ih =>
    obtain ⟨ke, ve⟩ := e
    simp only [List.map_cons, List.nodup_cons] at h
    by_cases hke : ke = k
    · subst hke
      simpa [mapSet] using h
    · simp only [mapSet, if_neg hke, List.map_cons, List.nodup_cons]
      refine ⟨?_, ih h.2⟩
      rw [mem_keys_mapSet]
      intro hmem
      rcases hmem with hmem | hmem
      · exact hke hmem
      · exact h.1 hmem

theorem foldl_update_snoc (ms : List Mob) (m : Mob) (a : Aggregator) :
    (ms ++ [m]).foldl Aggregator.update a = (ms.foldl Aggregator.update a).update m := by
  simp [List.foldl_append]

theorem nodup_keys_foldl (ms : List Mob) :
    (((ms.foldl Aggregator.update Aggregator.init).mobs).map Prod.fst).Nodup := by
  induction ms using List.reverseRecOn with
  | nil => simp [Aggregator.init]
  | append_singleton ms m ih =>
    rw [foldl_update_snoc]
    exact nodup_keys_mapSet _ _ _ ih

theorem mem_keys_foldl (ms : List Mob) (k : String) :
    k ∈ ((ms.foldl Aggregator.update Aggregator.init).mobs).map Prod.fst ↔
      ∃ m ∈ ms, mobKey m = k := by
  induction ms using List.reverseRecOn with
  | nil => simp [Aggregator.init]
  | append_singleton ms m ih =>
    rw [foldl_update_snoc]
    simp only [Aggregator.update, mem_keys_mapSet, ih, List.mem_append, List.mem_singleton]
    constructor
    · rintro (h | ⟨x, hx, hk⟩)
      · exact ⟨m, Or.inr rfl, h.symm⟩
      · exact ⟨x, Or.inl hx, hk⟩
    · rintro ⟨x, hx | hx, hk⟩
      · exact Or.inr ⟨x, hx, hk⟩
      · left; rw [← hk, hx]

theorem mapGet_foldl (ms : List Mob) (k : String) :
    mapGet (ms.foldl Aggregator.update Aggregator.init).mobs k =
      ms.reverse.find? (fun m => decide (mobKey m = k)) := by
  induction ms using List.reverseRecOn with
  | nil => simp [Aggregator.init, mapGet]
  | append_singleton ms m ih =>
    rw [foldl_update_snoc]
    simp only [Aggregator.update, mapGet_mapSet, List.reverse_append, List.reverse_cons,
      List.reverse_nil, List.nil_append, List.singleton_append, List.find?_cons]
    by_cases h : mobKey m = k
    · simp [h]
    · have h' : ¬ k = mobKey m := fun e => h e.symm
      simp [h, h', ih]

theorem repr_digit (i : Nat) (h1 : 1 ≤ i) (h2 : i ≤ 6) :
    (Nat.repr i).data = [Char.ofNat (48 + i)] := by
  interval_cases i <;> rfl

theorem mobKey_eq_iff (m m' : Mob) (h : 1 ≤ m.Instance ∧ m.Instance ≤ 6)
    (h' : 1 ≤ m'.Instance ∧ m'.Instance ≤ 6) :
    mobKey m = mobKey m' ↔ (m.Name = m'.Name ∧ m.Instance = m'.Instance) := by
  constructor
  · intro hk
    have hd := congrArg String.data hk
    simp only [mobKey, String.data_append, repr_digit _ h.1 h.2, repr_digit _ h'.1 h'.2] at hd
    have := List.append_inj' hd rfl
    obtain ⟨hn, hc⟩ := this
    refine ⟨String.ext hn, ?_⟩
    simp only [List.cons.injEq, and_true] at hc
    obtain ⟨h1, h2⟩ := h
    obtain ⟨h1', h2'⟩ := h'
    generalize m.Instance = i at *
    generalize m'.Instance = j at *
    interval_cases i <;> interval_cases j <;> first | rfl | (exfalso; revert hc; decide)
  · rintro ⟨hn, hi⟩
    simp [mobKey, hn, hi]

theorem find?_congr_mem {α : Type} (l : List α) (p q : α → Bool)
    (h : ∀ x ∈ l, p x = q x) : l.find? p = l.find? q := by
  induction l with
  | nil => rfl
  | cons a rest ih =>
    have ha := h a (List.mem_cons_self a rest)
    have hr := ih (fun x hx => h x (List.mem_cons_of_mem a hx))
    simp only [List.find?_cons, ha, hr]

theorem length_mobs_foldl (ms : List Mob)
    (hinst : ∀ m ∈ ms, 1 ≤ m.Instance ∧ m.Instance ≤ 6) :
    (ms.foldl Aggregator.update Aggregator.init).mobs.length =
      ((ms.map (fun m => (m.Name, m.Instance))).dedup).length := by
  have hnd := nodup_keys_foldl ms
  rw [← List.length_map (ms.foldl Aggregator.update Aggregator.init).mobs Prod.fst,
    ← List.toFinset_card_of_nodup hnd, ← List.card_toFinset]
  have himg : (((ms.foldl Aggregator.update Aggregator.init).mobs).map Prod.fst).toFinset =
      ((ms.map (fun m => (m.Name, m.Instance))).toFinset).image
        (fun p : String × Nat => p.1 ++ Nat.repr p.2) := by
    ext k
    rw [List.mem_toFinset, mem_keys_foldl]
    simp only [Finset.mem_image, List.mem_toFinset, List.mem_map]
    constructor
    · rintro ⟨m, hm, hk⟩
      exact ⟨(m.Name, m.Instance), ⟨m, hm, rfl⟩, hk⟩
    · rintro ⟨p, ⟨m, hm, hp⟩, hk⟩
      refine ⟨m, hm, ?_⟩
      rw [← hk, ← hp]
      rfl
  rw [himg]
  apply Finset.card_image_of_injOn
  intro p hp p' hp' hk
  simp only [Finset.mem_coe, List.mem_toFinset, List.mem_map] at hp hp'
  obtain ⟨m, hm, rfl⟩ := hp
  obtain ⟨m', hm', rfl⟩ := hp'
  have := (mobKey_eq_iff m m' (hinst m hm) (hinst m' hm')).mp hk
  exact Prod.ext this.1 this.2

/-- C5: after any sequence of updates with instances between 1 and 6, starting from
the empty map, the map has no key twice; its keys are exactly the keys
`Name + decimal(Instance)` of the sequence; two Sightings of the sequence have the
same key exactly when they have the same name and instance; the entry found under
the key of a Sighting is the last Sighting of the sequence with the same name and
the same instance; and the number of entries is the number of distinct
(name, instance) pairs. -/
theorem update_sequence_keeps_latest (ms : List Mob)
    (hinst : ∀ m ∈ ms, 1 ≤ m.Instance ∧ m.Instance ≤ 6) :
    (((ms.foldl Aggregator.update Aggregator.init).mobs).map Prod.fst).Nodup ∧
    (∀ k, k ∈ ((ms.foldl Aggregator.update Aggregator.init).mobs).map Prod.fst ↔
      ∃ m ∈ ms, mobKey m = k) ∧
    (∀ m ∈ ms, ∀ m' ∈ ms,
      (mobKey m = mobKey m' ↔ (m.Name = m'.Name ∧ m.Instance = m'.Instance))) ∧
    (∀ m ∈ ms, mapGet (ms.foldl Aggregator.update Aggregator.init).mobs (mobKey m) =
      lastWith ms m.Name m.Instance) ∧
    (∀ m ∈ ms, ∃ v ∈ ms, lastWith ms m.Name m.Instance = some v ∧
      v.Name = m.Name ∧ v.Instance = m.Instance) ∧
    (ms.foldl Aggregator.update Aggregator.init).mobs.length =
      ((ms.map (fun m => (m.Name, m.Instance))).dedup).length := by
  refine ⟨nodup_keys_foldl ms, mem_keys_foldl ms,
    fun m hm m' hm' => mobKey_eq_iff m m' (hinst m hm) (hinst m' hm'), ?_, ?_,
    length_mobs_foldl ms hinst⟩
  · intro m hm
    rw [mapGet_foldl]
    unfold lastWith
    apply find?_congr_mem
    intro x hx
    have hx' : x ∈ ms := List.mem_reverse.mp hx
    have := mobKey_eq_iff x m (hinst x hx') (hinst m hm)
    simp only [this]
  · intro m hm
    unfold lastWith
    cases hf : ms.reverse.find? (fun x => decide (x.Name = m.Name ∧ x.Instance = m.Instance)) with
    | none =>
      rw [List.find?_eq_none] at hf
      have := hf m (List.mem_reverse.mpr hm)
      simp at this
    | some v =>
      have hv := List.find?_some hf
      have hmem := List.mem_of_find?_eq_some hf
      simp only [decide_eq_true_eq] at hv
      exact ⟨v, List.mem_reverse.mp hmem, rfl, hv.1, hv.2⟩

/-- Witness for C5: three updates, the third with the name and instance of the
first; the map ends with two entries and holds the third Sighting for that pair. -/
theorem update_sequence_keeps_latest_witness :
    (([updateA, updateB, updateA2].foldl Aggregator.update Aggregator.init).mobs
      = [("Sansheya1", updateA2), ("Sansheya2", updateB)]) ∧
    ((([updateA, updateB, updateA2].foldl Aggregator.update Aggregator.init).mobs).map
      Prod.fst).Nodup :=
  ⟨by decide!,
   (update_sequence_keeps_latest [updateA, updateB, updateA2] (by decide)).1⟩

theorem ticks_idle (n : Nat) (a : Aggregator) (h : a.dueForSend = false) :
    ticks n a = a ∧ submitted (ticks n a).flushTick.2 = none := by
  have hflush : a.flushTick = (a, []) := by simp [Aggregator.flushTick, h]
  induction n with
  | zero => simp [ticks, hflush, submitted]
  | succ n ih => simpa [ticks, hflush] using ih

theorem foldl_update_due (ms : List Mob) (m : Mob) (a : Aggregator) :
    ((m :: ms).foldl Aggregator.update a).dueForSend = true := by
  induction ms using List.reverseRecOn with
  | nil => rfl
  | append_singleton ms x _ =>
    rw [← List.cons_append, foldl_update_snoc]
    rfl

theorem flushTick_due (a : Aggregator) (h : a.dueForSend = true) :
    a.flushTick = ({ a with dueForSend := false },
      [.lock, .clearDue, .sendMobs a.mobs, .unlock]) := by
  simp [Aggregator.flushTick, h, tickBody, runStmts, runDeferred, perform]

/-- C6: after a tick of the flush task that called `sendMobs`, the pending flag is
false; every later tick with no update in between leaves the state alone and
sends nothing; and after any number of such ticks, the first tick after one or
more updates calls `sendMobs` again, with the map as updated. -/
theorem flush_then_clear (a : Aggregator) (hsub : (submitted a.flushTick.2).isSome = true) :
    a.flushTick.1.dueForSend = false ∧
    (∀ n, ticks n a.flushTick.1 = a.flushTick.1 ∧
      submitted (ticks n a.flushTick.1).flushTick.2 = none) ∧
    (∀ n m ms,
      submitted ((m :: ms).foldl Aggregator.update (ticks n a.flushTick.1)).flushTick.2 =
        some ((m :: ms).foldl Aggregator.update a.flushTick.1).mobs) := by
  have hdue : a.dueForSend = true := by
    by_contra hne
    have hf : a.dueForSend = false := by simpa using hne
    have : a.flushTick = (a, []) := by simp [Aggregator.flushTick, hf]
    rw [this] at hsub
    simp [submitted] at hsub
  have hclear : a.flushTick.1.dueForSend = false := by rw [flushTick_due a hdue]
  refine ⟨hclear, fun n => ticks_idle n _ hclear, ?_⟩
  intro n m ms
  rw [(ticks_idle n _ hclear).1, flushTick_due _ (foldl_update_due ms m _)]
  rfl

/-- Witness for C6: an aggregator with one pending Sighting. -/
theorem flush_then_clear_witness :
    (submitted pendingAggregator.flushTick.2).isSome = true ∧
    pendingAggregator.flushTick.1.dueForSend = false ∧
    submitted (ticks 3 pendingAggregator.flushTick.1).flushTick.2 = none ∧
    submitted ((([updateB].foldl Aggregator.update
      (ticks 3 pendingAggregator.flushTick.1))).flushTick.2)
      = some [("Sansheya1", updateA), ("Sansheya2", updateB)] :=
  ⟨by decide, (flush_then_clear pendingAggregator (by decide)).1,
   ((flush_then_clear pendingAggregator (by decide)).2.1 3).2, by decide!⟩

/-- C7 (amended): a tick of the flush task that finds the pending flag set takes the
lock, clears the flag, calls `sendMobs` on the map and only then releases the lock,
so the submission is made while the lock is held; a tick that finds the flag clear
does nothing. -/
theorem flushTick_sends_under_lock (a : Aggregator) :
    a.flushTick.2 =
      (if a.dueForSend then [Event.lock, .clearDue, .sendMobs a.mobs, .unlock] else []) ∧
    sendsOutsideLock false a.flushTick.2 = !a.dueForSend := by
  cases h : a.dueForSend with
  | true => rw [flushTick_due a h]; exact ⟨rfl, rfl⟩
  | false =>
    have : a.flushTick = (a, []) := by simp [Aggregator.flushTick, h]
    rw [this]; exact ⟨rfl, rfl⟩

/-- C7 (as stated) fails: in a tick with a pending Sighting, `sendMobs` runs between
`Lock` and `Unlock`. -/
theorem flushTick_lock_counterexample :
    pendingAggregator.flushTick.2 =
      [Event.lock, .clearDue, .sendMobs [("Sansheya1", updateA)], .unlock] ∧
    sendsOutsideLock false pendingAggregator.flushTick.2 = false := by
  refine ⟨by decide!, by decide⟩

/-! ## Submitter and file discovery at the failing inputs -/

/-- C8 (code at the failing input): when the transport returns an error and no
response, `sendMobs` logs the error and then stops with a nil dereference, for
every snapshot; the same happens when the request cannot be built. -/
theorem sendMobs_nil_dereference (s : Scouter) (lib : Lib) (tbl : RefData)
    (mobs : List (String × Mob)) :
    s.sendMobs lib tbl netTimeout mobs =
      (["Sending mobs to " ++ ("https://scout.wobbuffet.net/api/v1/scout/" ++ s.Session),
        "context deadline exceeded"], .error .nilDereference) ∧
    s.sendMobs lib tbl netBadRequest mobs =
      (["Sending mobs to " ++ ("https://scout.wobbuffet.net/api/v1/scout/" ++ s.Session),
        "invalid URL escape"], .error .nilDereference) := by
  constructor
  · simp [Scouter.sendMobs, netTimeout, logErr]
  · simp [Scouter.sendMobs, netBadRequest, logErr]

theorem latest_foldlM (files : List DirEntry) (st : Option DirEntry × Int)
    (hst : st.2 = zeroTime)
    (h : ∀ f ∈ files, ∃ t, f.ModTime = some t ∧ zeroTime < t) :
    files.foldlM latestStep st =
      .ok (match files.getLast? with
        | some f => some f
        | none => st.1, zeroTime) := by
  induction files generalizing st with
  | nil => simp [← hst]; rfl
  | cons f rest ih =>
    obtain ⟨t, hft, hpos⟩ := h f (List.mem_cons_self f rest)
    have hstep : latestStep st f = .ok (some f, zeroTime) := by
      simp [latestStep, hft, hst, hpos]
    rw [List.foldlM_cons, hstep]
    show rest.foldlM latestStep (some f, zeroTime) = _
    rw [ih (some f, zeroTime) rfl (fun g hg => h g (List.mem_cons_of_mem f hg))]
    cases rest with
    | nil => rfl
    | cons g more =>
      have hlast : (g :: more).getLast? = some ((g :: more).getLast (by simp)) :=
        List.getLast?_eq_getLast _ _
      simp [List.getLast?_cons_cons, hlast]

theorem GetLatestFile_last (files : List DirEntry)
    (h : ∀ f ∈ files, ∃ t, f.ModTime = some t ∧ zeroTime < t) :
    GetLatestFile (some files) = .ok files.getLast? := by
  have hfold := latest_foldlM files (none, zeroTime) rfl h
  simp only [GetLatestFile, hfold]
  cases files.getLast? <;> rfl

/-- C10 (code at the failing input): on a listing whose first entry was modified
last, `GetLatestFile` returns the second entry, which is older. -/
theorem GetLatestFile_returns_older :
    GetLatestFile (some sampleListing) = .ok (some ⟨"Network_20240822.log", some 100⟩) ∧
    (⟨"Network_20240821.log", some 200⟩ : DirEntry) ∈ sampleListing ∧
    (100 : Int) < 200 := by
  refine ⟨by decide, by decide, by decide⟩

end Turtlesubmitter
